import Mathlib

/-! geoip: a verification development

The program (`src/main.go`) is a linear pipeline:

1. `readAndValidateIPs` scans a file line by line, trims, drops blank lines,
   keeps the lines `net.ParseIP` accepts and logs the others;
2. `main` cuts the address list into chunks of `batchSize` and calls
   `lookupBatch` once per chunk;
3. the results whose status is `"success"` are tallied per country in the map
   `countryCounts`;
4. the tally is printed, one line per key.

The embedding:

* Everything outside the program (standard library functions, the file system,
  the HTTP service, the iteration order of a Go map) is a field of `Env`; the
  theorems hold for every `Env`.
* Side effects (log lines, calls of `lookupBatch`, `time.Sleep`, `fmt.Printf`,
  `os.Exit`) are recorded, in program order, as a list of `Event`s.
* The `for` loops are recursive functions passing the loop state explicitly.
  The batching loop, which steps an index, takes fuel; `main_total` shows that
  the fuel `main` supplies is always enough.
* A Go `map[string]int` is an association list.  Reading an absent key gives 0
  (`mapIndex`), `m[k]++` is `mapIncr`.  Counts and indices are natural numbers.
  A Go `int` has 64 bits; the tally starts empty and a count goes up by one per
  decoded response element, so a count would wrap only after more than `2^63`
  response elements in one run, and the loop index stays below
  `len(ips) + batchSize`.
* Go strings are byte strings; here they are Lean `String`s, so lines that are
  not valid UTF-8 are outside the model.
-/

namespace GeoIP

/-! ## Data model -/

/-- Request element of the batch endpoint (`ipQuery`). -/
structure ipQuery where
  Query : String
deriving DecidableEq, Repr

/-- Per-address answer of the service (`ipResponse`).  A field absent from the
JSON is the empty string, the zero value of Go. -/
structure ipResponse where
  Status : String
  Country : String
  Message : String
deriving DecidableEq, Repr

/-- Number of queries per batch request (`batchSize`). -/
def batchSize : Nat := 100

/-- Delay of the `time.Sleep` call in `main`, in milliseconds. -/
def sleepMillis : Nat := 1500

/-- Go `map[string]int`, as an association list. -/
abbrev Tally := List (String × Nat)

/-- Value of `m[k]`: the count stored under `k`, and 0 for an absent key. -/
def mapIndex : Tally → String → Nat
  | [], _ => 0
  | (k0, v) :: rest, k => if k0 = k then v else mapIndex rest k

/-- Effect of `m[k]++`: the count under `k` goes up by one; an absent key is
created with count 1. -/
def mapIncr : Tally → String → Tally
  | [], k => [(k, 1)]
  | (k0, v) :: rest, k => if k0 = k then (k0, v + 1) :: rest else (k0, v) :: mapIncr rest k

/-- Keys of the map. -/
def mapKeys (t : Tally) : List String := t.map Prod.fst

/-- Sum of all counts of the map. -/
def mapTotal (t : Tally) : Nat := (t.map Prod.snd).sum

/-- Observable effects of a run, in program order. -/
inductive Event where
  /-- The usage message written by `fmt.Fprintf(os.Stderr, ...)`. -/
  | usage (prog : String)
  /-- A `log.Fatalf` call. -/
  | fatal (msg : String)
  /-- The diagnostic of `readAndValidateIPs` for a line that is not an address. -/
  | logMalformed (lineNum : Nat) (line : String)
  /-- A call `lookupBatch(batch)` together with what it returned
  (`none` for an error). -/
  | lookup (chunk : List String) (result : Option (List ipResponse))
  /-- The diagnostic of `main` for a batch whose lookup returned an error. -/
  | logBatchError (i : Nat) (err : String)
  /-- The diagnostic of `main` for a result whose status is not `"success"`. -/
  | logLookupFailed (msg : String)
  /-- A `time.Sleep` call, in milliseconds. -/
  | sleep (ms : Nat)
  /-- A `fmt.Printf("%s: %d\n", ...)` call; the text without the newline. -/
  | print (line : String)
deriving DecidableEq, Repr

/-- What a file gives to a `bufio.Scanner`: the lines scanned, and the error
`scanner.Err()` reports once scanning has stopped, if any. -/
structure FileContent where
  lines : List String
  scanErr : Option String
deriving DecidableEq, Repr

/-- Everything the program takes from outside.  `post n payload` is the
outcome of the `http.Post` issued by the `n`-th call of `lookupBatch`
(counting from 0); `rangeOrder` is the order in which `range` visits a map. -/
structure Env where
  trimSpace : String → String
  parseIP : String → Bool
  openFile : String → Except String FileContent
  marshal : List ipQuery → Except String String
  post : Nat → String → Except String String
  decode : String → Except String (List ipResponse)
  rangeOrder : Tally → Tally
  rangeOrder_perm : ∀ t, (rangeOrder t).Perm t

/-! ## The Loader: `readAndValidateIPs` -/

/-- Loop state of the scanning loop. -/
structure ScanState where
  ips : List String
  lineNum : Nat
  log : List Event
deriving DecidableEq, Repr

/-- The `for scanner.Scan()` loop of `readAndValidateIPs`, over the lines the
scanner yields. -/
def scanLoop (env : Env) : List String → ScanState → ScanState
  | [], st => st
  | text :: rest, st =>
    let lineNum := st.lineNum + 1
    let line := env.trimSpace text
    if line = "" then
      scanLoop env rest { st with lineNum := lineNum }
    else if env.parseIP line = false then
      scanLoop env rest
        { st with lineNum := lineNum, log := st.log ++ [Event.logMalformed lineNum line] }
    else
      scanLoop env rest { st with lineNum := lineNum, ips := st.ips ++ [line] }

/-- Function `readAndValidateIPs`: the returned pair `(ips, err)` as an
`Except`, and the diagnostics logged. -/
def readAndValidateIPs (env : Env) (filename : String) :
    Except String (List String) × List Event :=
  match env.openFile filename with
  | .error err => (.error err, [])
  | .ok file =>
    let st := scanLoop env file.lines { ips := [], lineNum := 0, log := [] }
    match file.scanErr with
    | some err => (.error err, st.log)
    | none => (.ok st.ips, st.log)

/-! ## The Resolver: `lookupBatch` -/

/-- Function `lookupBatch`, as the `call`-th call of the run. -/
def lookupBatch (env : Env) (call : Nat) (ips : List String) :
    Except String (List ipResponse) :=
  let queries := ips.map ipQuery.mk
  match env.marshal queries with
  | .error err => .error ("failed to marshal batch payload: " ++ err)
  | .ok payload =>
    match env.post call payload with
    | .error err => .error ("HTTP POST error: " ++ err)
    | .ok body =>
      match env.decode body with
      | .error err => .error ("failed to decode response: " ++ err)
      | .ok results => .ok results

/-! ## `main` -/

/-- Loop state of the batching loop: the tally, the number of `lookupBatch`
calls made so far, and the events so far. -/
structure RunState where
  countryCounts : Tally
  calls : Nat
  trace : List Event
deriving DecidableEq, Repr

/-- The `for _, res := range results` loop of `main`. -/
def aggregate : List ipResponse → RunState → RunState
  | [], st => st
  | res :: rest, st =>
    if res.Status ≠ "success" then
      aggregate rest { st with trace := st.trace ++ [Event.logLookupFailed res.Message] }
    else
      aggregate rest { st with countryCounts := mapIncr st.countryCounts res.Country }

/-- The slice `batch := ips[i:end]` of `main`, with `end := i + batchSize`
lowered to `len(ips)` when it exceeds it. -/
def batchAt (ips : List String) (i : Nat) : List String :=
  let end0 := i + batchSize
  let end1 := if end0 > ips.length then ips.length else end0
  (ips.take end1).drop i

/-- Body of the batching loop of `main` at index `i`. -/
def loopBody (env : Env) (ips : List String) (i : Nat) (st : RunState) : RunState :=
  let batch := batchAt ips i
  let result := lookupBatch env st.calls batch
  let st1 : RunState :=
    { st with calls := st.calls + 1,
              trace := st.trace ++ [Event.lookup batch result.toOption] }
  match result with
  | .error err => { st1 with trace := st1.trace ++ [Event.logBatchError i err] }
  | .ok results =>
    let st2 := aggregate results st1
    { st2 with trace := st2.trace ++ [Event.sleep sleepMillis] }

/-- The loop `for i := 0; i < len(ips); i += batchSize`, started at index `i`
with the given fuel; `none` when the fuel runs out before the loop ends. -/
def batchLoop (env : Env) (ips : List String) : Nat → Nat → RunState → Option RunState
  | 0, i, st => if i < ips.length then none else some st
  | fuel + 1, i, st =>
    if i < ips.length then batchLoop env ips fuel (i + batchSize) (loopBody env ips i st)
    else some st

/-- The text `fmt.Printf("%s: %d\n", country, count)` writes, without the
newline. -/
def formatLine (country : String) (count : Nat) : String :=
  country ++ ": " ++ toString count

/-- The `for country, count := range countryCounts` loop of `main`. -/
def report (env : Env) (st : RunState) : RunState :=
  { st with trace := st.trace ++
      (env.rangeOrder st.countryCounts).map fun e => Event.print (formatLine e.1 e.2) }

/-- How a run ends: the exit status, the events, and the final tally. -/
structure Outcome where
  exitCode : Nat
  trace : List Event
  countryCounts : Tally
deriving DecidableEq, Repr

/-- Function `main`, for `os.Args = prog :: argv`. -/
def main (env : Env) (prog : String) (argv : List String) : Option Outcome :=
  match argv with
  | [] => some { exitCode := 1, trace := [Event.usage prog], countryCounts := [] }
  | filename :: _ =>
    match readAndValidateIPs env filename with
    | (.error err, log) =>
      some { exitCode := 1,
             trace := log ++ [Event.fatal ("Error reading IP file: " ++ err)],
             countryCounts := [] }
    | (.ok ips, log) =>
      if ips.length = 0 then
        some { exitCode := 1,
               trace := log ++ [Event.fatal "No valid IP addresses found in file."],
               countryCounts := [] }
      else
        match batchLoop env ips ips.length 0 { countryCounts := [], calls := 0, trace := log } with
        | none => none
        | some st =>
          let st1 := report env st
          some { exitCode := 0, trace := st1.trace, countryCounts := st1.countryCounts }

/-! ## Reading a trace -/

/-- The calls of `lookupBatch`, in call order: the chunk passed and the
results returned (`none` for an error). -/
def lookupCalls (tr : List Event) : List (List String × Option (List ipResponse)) :=
  tr.filterMap fun e => match e with
    | Event.lookup chunk result => some (chunk, result)
    | _ => none

/-- The chunks passed to `lookupBatch`, in call order. -/
def lookupChunks (tr : List Event) : List (List String) :=
  (lookupCalls tr).map Prod.fst

/-- The result lists of the `lookupBatch` calls that returned without error,
in call order. -/
def lookupResults (tr : List Event) : List (List ipResponse) :=
  (lookupCalls tr).filterMap Prod.snd

/-- The calls of `lookupBatch` (`none`) and the pauses (`some ms`), in the
order they happen. -/
def pacing (tr : List Event) : List (Option Nat) :=
  tr.filterMap fun e => match e with
    | Event.lookup _ _ => some none
    | Event.sleep ms => some (some ms)
    | _ => none

/-- The lines printed, in order. -/
def printedLines (tr : List Event) : List String :=
  tr.filterMap fun e => match e with
    | Event.print line => some line
    | _ => none

/-- The malformed-line diagnostics, in order. -/
def malformedLog (tr : List Event) : List (Nat × String) :=
  tr.filterMap fun e => match e with
    | Event.logMalformed n line => some (n, line)
    | _ => none

/-! ## Models of the standard library functions

`strings.TrimSpace` and `net.ParseIP` belong to the Go standard library, not to
the program.  The theorems take them from `Env`; the models below, written
after the algorithms of the library, are what the concrete scenarios run on. -/

namespace Go

/-- Predicate `unicode.IsSpace`. -/
def isSpace (c : Char) : Bool :=
  let n := c.toNat
  (9 ≤ n && n ≤ 13) || n == 32 || n == 0x85 || n == 0xA0 || n == 0x1680 ||
    (0x2000 ≤ n && n ≤ 0x200A) || n == 0x2028 || n == 0x2029 || n == 0x202F ||
    n == 0x205F || n == 0x3000

/-- Function `strings.TrimSpace`. -/
def trimSpace (s : String) : String :=
  String.mk ((s.data.dropWhile isSpace).reverse.dropWhile isSpace).reverse

/-- Decimal digit test. -/
def isDigit (c : Char) : Bool := 48 ≤ c.toNat && c.toNat ≤ 57

/-- Hexadecimal digit test. -/
def isHex (c : Char) : Bool :=
  isDigit c || (97 ≤ c.toNat && c.toNat ≤ 102) || (65 ≤ c.toNat && c.toNat ≤ 70)

/-- The loop of `parseIPv4Fields`: `first` says the character is the first of
the text, `prevDot` that the previous one was a dot; `val`, `pos`, `digLen`
are the loop variables of the same names. -/
def parseIPv4Fields : List Char → Bool → Bool → Nat → Nat → Nat → Bool
  | [], _, _, _, pos, _ => decide (3 ≤ pos)
  | c :: rest, first, prevDot, val, pos, digLen =>
    if isDigit c then
      if digLen = 1 ∧ val = 0 then false
      else if val * 10 + (c.toNat - 48) > 255 then false
      else parseIPv4Fields rest false false (val * 10 + (c.toNat - 48)) pos (digLen + 1)
    else if c = Char.ofNat 46 then
      if first ∨ rest = [] ∨ prevDot then false
      else if pos = 3 then false
      else parseIPv4Fields rest false true 0 (pos + 1) 0
    else false

/-- Dotted-quad parser: four decimal fields 0..255 without leading zeros. -/
def parseIPv4 (s : List Char) : Bool := parseIPv4Fields s true false 0 0 0

/-- The group loop of `parseIPv6`: `s` is the text left, `i` the number of
address bytes filled, `ell` whether a `::` has been seen.  Gives `none` on a
syntax error and the loop variables at the exit otherwise. -/
def parseIPv6Loop : Nat → List Char → Nat → Bool → Option (List Char × Nat × Bool)
  | 0, s, i, ell => some (s, i, ell)
  | fuel + 1, s, i, ell =>
    if i < 16 then
      let off := (s.takeWhile isHex).length
      if off > 4 then none
      else if off = 0 then none
      else if (s.drop off).head? = some (Char.ofNat 46) then
        if ell = false ∧ i ≠ 12 then none
        else if i + 4 > 16 then none
        else if parseIPv4 s then some ([], i + 4, ell)
        else none
      else
        match s.drop off with
        | [] => some ([], i + 2, ell)
        | c :: s1 =>
          if c ≠ Char.ofNat 58 then none
          else
            match s1 with
            | [] => none
            | c2 :: s2 =>
              if c2 = Char.ofNat 58 then
                if ell then none
                else
                  match s2 with
                  | [] => some ([], i + 2, true)
                  | _ => parseIPv6Loop fuel s2 (i + 2) true
              else parseIPv6Loop fuel s1 (i + 2) ell
    else some (s, i, ell)

/-- Colon-hex parser.  A text with a zone (`%`) is rejected: `net.ParseIP`
accepts no zone. -/
def parseIPv6 (s : List Char) : Bool :=
  if Char.ofNat 37 ∈ s then false
  else
    let lead := decide (s.take 2 = [Char.ofNat 58, Char.ofNat 58])
    let s1 := if lead then s.drop 2 else s
    if lead ∧ s1 = [] then true
    else
      match parseIPv6Loop 8 s1 0 lead with
      | none => false
      | some (s2, i, ell) =>
        if s2 ≠ [] then false
        else if i < 16 then ell
        else !ell

/-- Whether `net.ParseIP(s)` is non-nil: the first of `.`, `:` and `%` in the
text selects the parser. -/
def parseIP (s : String) : Bool :=
  match s.data.find? fun c => c.toNat == 46 || c.toNat == 58 || c.toNat == 37 with
  | some c =>
    if c.toNat = 46 then parseIPv4 s.data
    else if c.toNat = 58 then parseIPv6 s.data
    else false
  | none => false

end Go

/-! ## Concrete environments for the scenarios -/

/-- An environment with one file, whatever its name, the Go models of the
library functions, and a service given by `post` and `decode`.  The payload is
the comma-separated list of the queries and a map is visited in stored order. -/
def scenarioEnv (file : FileContent) (post : Nat → String → Except String String)
    (decode : String → Except String (List ipResponse)) : Env where
  trimSpace := Go.trimSpace
  parseIP := Go.parseIP
  openFile := fun _ => Except.ok file
  marshal := fun qs => Except.ok (String.intercalate "," (qs.map ipQuery.Query))
  post := post
  decode := decode
  rangeOrder := id
  rangeOrder_perm := fun t => List.Perm.refl t

/-- Scenario A: a file with the lines `8.8.8.8`, `not-an-ip`, an empty line and
`1.1.1.1`; the service is not reached by the Loader. -/
def scenarioA : Env :=
  scenarioEnv { lines := ["8.8.8.8", "not-an-ip", "", "1.1.1.1"], scanErr := none }
    (fun _ payload => Except.ok payload) (fun _ => Except.ok [])

/-- Scenario B: one chunk of two addresses, both answered with a success for
`United States`. -/
def scenarioB : Env :=
  scenarioEnv { lines := ["8.8.8.8", "8.8.4.4"], scanErr := none }
    (fun _ payload => Except.ok payload)
    (fun _ => Except.ok [{ Status := "success", Country := "United States", Message := "" },
      { Status := "success", Country := "United States", Message := "" }])

/-- Scenario C: a sole address, answered with a failure `private range`. -/
def scenarioC : Env :=
  scenarioEnv { lines := ["10.0.0.1"], scanErr := none }
    (fun _ payload => Except.ok payload)
    (fun _ => Except.ok [{ Status := "fail", Country := "", Message := "private range" }])

/-- A file of 201 addresses: three chunks. -/
def threeChunkLines : List String :=
  List.replicate 100 "8.8.8.8" ++ List.replicate 100 "1.1.1.1" ++ ["9.9.9.9"]

/-- Three chunks; the transport fails on the second call and echoes the
payload on the others; the decoded answer is one success, for `United States`
when the payload starts with `8` and for `Switzerland` otherwise. -/
def scenarioFailSecond : Env :=
  scenarioEnv { lines := threeChunkLines, scanErr := none }
    (fun n payload => if n = 1 then Except.error "connection refused" else Except.ok payload)
    (fun body => Except.ok
      [ipResponse.mk "success"
        (if body.data.head? = some (Char.ofNat 56) then "United States" else "Switzerland")
        ""])

/-- Two chunks (101 addresses); the transport fails on the first call. -/
def scenarioFailFirst : Env :=
  scenarioEnv { lines := List.replicate 101 "8.8.8.8", scanErr := none }
    (fun n payload => if n = 0 then Except.error "connection refused" else Except.ok payload)
    (fun _ => Except.ok [{ Status := "success", Country := "United States", Message := "" }])

/-- A file without any valid address. -/
def scenarioNoAddress : Env :=
  scenarioEnv { lines := ["not-an-ip", "", "300.1.1.1"], scanErr := none }
    (fun _ payload => Except.ok payload) (fun _ => Except.ok [])

/-- One address, answered with four elements: two successes for
`United States`, a success without country, and a failure. -/
def scenarioLongResponse : Env :=
  scenarioEnv { lines := ["8.8.8.8"], scanErr := none }
    (fun _ payload => Except.ok payload)
    (fun _ => Except.ok [ipResponse.mk "success" "United States" "",
      ipResponse.mk "success" "" "", ipResponse.mk "fail" "" "invalid query",
      ipResponse.mk "success" "United States" ""])

/-- A file whose third line is longer than the token limit of `bufio.Scanner`:
the scanner delivers the first two lines, `8.8.8.8` and `not-an-ip`, and then
stops with the error `bufio.Scanner: token too long`. -/
def scenarioScanError : Env :=
  scenarioEnv
    { lines := ["8.8.8.8", "not-an-ip"], scanErr := some "bufio.Scanner: token too long" }
    (fun _ payload => Except.ok payload) (fun _ => Except.ok [])

/-! ## Specification-side definitions

These follow the words of the specification, to be compared with the
functions above. -/

/-- A line is blank when its trimmed text is empty. -/
def isBlank (env : Env) (l : String) : Bool := decide (env.trimSpace l = "")

/-- A line is kept when its trimmed text is non-empty and parses as an
address. -/
def isKept (env : Env) (l : String) : Bool := !isBlank env l && env.parseIP (env.trimSpace l)

/-- A line is malformed when its trimmed text is non-empty and does not parse
as an address. -/
def isMalformed (env : Env) (l : String) : Bool :=
  !isBlank env l && !env.parseIP (env.trimSpace l)

/-- The Loader by the specification: trim each line, drop the lines whose
trimmed text is empty, keep those whose trimmed text parses. -/
def loaderSpec (env : Env) (lines : List String) : List String :=
  ((lines.map env.trimSpace).filter fun s => decide (s ≠ "")).filter fun s => env.parseIP s

/-- The value the Loader returns by the specification, for the lines the
scanner delivers and the error it ends with, if any: the list of `loaderSpec`
when scanning ends without error, the scanner error otherwise. -/
def loaderResult (env : Env) (lines : List String) :
    Option String → Except String (List String)
  | none => Except.ok (loaderSpec env lines)
  | some err => Except.error err

/-- The diagnostics by the specification: for each malformed line, in file
order, its 1-based position and its trimmed text. -/
def diagnosticsSpec (env : Env) (lines : List String) : List (Nat × String) :=
  ((lines.enumFrom 1).filter fun p => isMalformed env p.2).map fun p => (p.1, env.trimSpace p.2)

/-- Number of chunks for a list of length `L`: `ceil(L / batchSize)`. -/
def chunkCount (L : Nat) : Nat := (L + (batchSize - 1)) / batchSize

/-- The `k`-th consecutive chunk of `batchSize` addresses (the last one may be
shorter). -/
def chunkAt (ips : List String) (k : Nat) : List String :=
  (ips.drop (k * batchSize)).take batchSize

/-- An outcome counts for country `C` when its status is exactly `"success"`
and its country is `C`. -/
def isSuccessFor (C : String) (r : ipResponse) : Bool :=
  decide (r.Status = "success") && decide (r.Country = C)

/-- An outcome is a success when its status is exactly `"success"`. -/
def isSuccess (r : ipResponse) : Bool := decide (r.Status = "success")

/-- The tally after the aggregation loop has run over `rs`, from tally `t`. -/
def tallyOf (rs : List ipResponse) (t : Tally) : Tally :=
  (aggregate rs { countryCounts := t, calls := 0, trace := [] }).countryCounts

/-- The events of one pass through the loop body, after the lookup itself:
the batch diagnostic for an error; for a result list, the diagnostics of the
results that are no success, then the pause. -/
def afterLookup (i : Nat) : Except String (List ipResponse) → List Event
  | Except.error err => [Event.logBatchError i err]
  | Except.ok results =>
    ((results.filter fun r => !isSuccess r).map fun r => Event.logLookupFailed r.Message) ++
      [Event.sleep sleepMillis]

/-- The call record of the `k`-th chunk: the chunk and what `lookupBatch`
returns for it as the `k`-th call. -/
def callAt (env : Env) (ips : List String) (k : Nat) :
    List String × Option (List ipResponse) :=
  (chunkAt ips k, (lookupBatch env k (chunkAt ips k)).toOption)

/-- What holds of the loop state whenever the loop condition is evaluated with
index `i`: `i` is a multiple of `batchSize` less than one step beyond the end,
the first `i / batchSize` chunks have been looked up once each, in order, the
tally is the aggregation of the result lists returned without error, nothing
has been printed, and a pause follows exactly the lookups that returned
without error. -/
def LoopInv (env : Env) (ips : List String) (log : List Event) (i : Nat)
    (st : RunState) : Prop :=
  i % batchSize = 0 ∧ i < ips.length + batchSize ∧ st.calls = i / batchSize ∧
  lookupCalls st.trace = (List.range (i / batchSize)).map (callAt env ips) ∧
  st.countryCounts = tallyOf (lookupResults st.trace).flatten [] ∧
  printedLines st.trace = [] ∧
  malformedLog st.trace = malformedLog log ∧
  pacing st.trace =
    (lookupCalls st.trace).flatMap fun c => if c.2.isSome then [none, some sleepMillis] else [none]

/-! # Theorems -/

set_option maxRecDepth 100000

/-! ## The Loader -/

theorem scanLoop_eq (env : Env) (lines : List String) (st : ScanState) :
    scanLoop env lines st =
      { ips := st.ips ++
          ((lines.enumFrom (st.lineNum + 1)).filter fun p => isKept env p.2).map
            fun p => env.trimSpace p.2,
        lineNum := st.lineNum + lines.length,
        log := st.log ++
          ((lines.enumFrom (st.lineNum + 1)).filter fun p => isMalformed env p.2).map
            fun p => Event.logMalformed p.1 (env.trimSpace p.2) } := by
  induction lines generalizing st with
  | nil => simp [scanLoop]
  | cons text rest ih =>
    by_cases hb : env.trimSpace text = ""
    · simp [scanLoop, ih, hb, isKept, isMalformed, isBlank, List.enumFrom, List.filter_cons]
      omega
    · by_cases hp : env.parseIP (env.trimSpace text) = false
      · simp [scanLoop, ih, hb, hp, isKept, isMalformed, isBlank, List.enumFrom,
          List.filter_cons]
        omega
      · simp only [Bool.not_eq_false] at hp
        simp [scanLoop, ih, hb, hp, isKept, isMalformed, isBlank, List.enumFrom,
          List.filter_cons]
        omega

theorem loaderSpec_cons (env : Env) (text : String) (rest : List String) :
    loaderSpec env (text :: rest) =
      if isKept env text then env.trimSpace text :: loaderSpec env rest
      else loaderSpec env rest := by
  unfold loaderSpec isKept isBlank
  by_cases hb : env.trimSpace text = ""
  · simp [List.filter_cons, hb]
  · by_cases hp : env.parseIP (env.trimSpace text) = true
    · simp [List.filter_cons, hb, hp]
    · simp [List.filter_cons, hb, hp]

theorem kept_enumFrom (env : Env) (lines : List String) (n : Nat) :
    ((lines.enumFrom n).filter fun p => isKept env p.2).map (fun p => env.trimSpace p.2) =
      loaderSpec env lines := by
  induction lines generalizing n with
  | nil => simp [loaderSpec]
  | cons text rest ih =>
    rw [loaderSpec_cons, List.enumFrom, List.filter_cons]
    by_cases hk : isKept env text = true
    · simp only [hk, if_true, List.map_cons, ih]
    · simp only [hk, if_false]
      exact ih (n + 1)

theorem readAndValidateIPs_eq (env : Env) (filename : String) (lines : List String)
    (scanErr : Option String)
    (hfile : env.openFile filename = Except.ok { lines := lines, scanErr := scanErr }) :
    readAndValidateIPs env filename =
      (loaderResult env lines scanErr,
        (diagnosticsSpec env lines).map fun p => Event.logMalformed p.1 p.2) := by
  cases scanErr <;>
    simp [readAndValidateIPs, hfile, scanLoop_eq, kept_enumFrom, diagnosticsSpec, List.map_map,
      loaderResult]

/-- C1, as amended: for a file that opens, with `lines` the lines the scanner
delivers.  When scanning ends without error, `readAndValidateIPs` returns
exactly the list obtained by trimming each line, dropping the lines whose
trimmed text is empty and keeping those that parse as an address; when scanning
stops with an error, it returns that error and no list.  So whenever a list is
returned, it is that list: every returned string parses, the list is a
subsequence of the trimmed lines (original relative order), and every valid
non-empty trimmed text occurs in it as often as among the trimmed lines
(duplicates preserved).  On the lines of scenario A, scanned without error, with
the Go library functions, the result is `["8.8.8.8", "1.1.1.1"]`. -/
theorem readAndValidateIPs_returns_valid_lines (env : Env) (filename : String)
    (lines : List String) (scanErr : Option String)
    (hfile : env.openFile filename = Except.ok { lines := lines, scanErr := scanErr }) :
    (scanErr = none →
      (readAndValidateIPs env filename).1 = Except.ok (loaderSpec env lines)) ∧
    (∀ err, scanErr = some err →
      (readAndValidateIPs env filename).1 = Except.error err) ∧
    (∀ ips, (readAndValidateIPs env filename).1 = Except.ok ips →
      scanErr = none ∧ ips = loaderSpec env lines) ∧
    (∀ s ∈ loaderSpec env lines, env.parseIP s = true) ∧
    (loaderSpec env lines).Sublist (lines.map env.trimSpace) ∧
    (∀ s, s ≠ "" → env.parseIP s = true →
      (loaderSpec env lines).count s = (lines.map env.trimSpace).count s) ∧
    (scanErr = none → lines = ["8.8.8.8", "not-an-ip", "", "1.1.1.1"] →
      env.trimSpace = Go.trimSpace → env.parseIP = Go.parseIP →
      (readAndValidateIPs env filename).1 = Except.ok ["8.8.8.8", "1.1.1.1"]) := by
  have hrun := readAndValidateIPs_eq env filename lines scanErr hfile
  have hret : scanErr = none →
      (readAndValidateIPs env filename).1 = Except.ok (loaderSpec env lines) := by
    intro hnone
    rw [hrun, hnone]
    rfl
  refine ⟨hret, ?_, ?_, ?_, ?_, ?_, ?_⟩
  · intro err herr
    rw [hrun, herr]
    rfl
  · intro ips hips
    rw [hrun] at hips
    cases scanErr with
    | none =>
      refine ⟨rfl, ?_⟩
      simpa [loaderResult] using hips.symm
    | some err => simp [loaderResult] at hips
  · intro s hs
    simp only [loaderSpec, List.mem_filter] at hs
    exact hs.2
  · exact (List.filter_sublist _).trans (List.filter_sublist _)
  · intro s hne hp
    simp only [loaderSpec, List.count, List.countP_filter]
    congr 1
    funext a
    by_cases ha : a = s
    · subst ha
      simp [hne, hp]
    · have : (a == s) = false := by simpa using ha
      simp [this]
  · intro hnone hl ht hp
    rw [hret hnone, hl]
    simp only [loaderSpec, ht, hp]
    exact congrArg Except.ok (by decide)

/-- Scenario A run through `readAndValidateIPs`. -/
theorem readAndValidateIPs_returns_valid_lines_witness :
    (readAndValidateIPs scenarioA "ips.txt").1 = Except.ok ["8.8.8.8", "1.1.1.1"] :=
  (readAndValidateIPs_returns_valid_lines scenarioA "ips.txt"
    ["8.8.8.8", "not-an-ip", "", "1.1.1.1"] none rfl).2.2.2.2.2.2 rfl rfl rfl rfl

/-- C1 as first stated fails: the scanner delivers `8.8.8.8` and `not-an-ip`
and then stops with an error.  The list of the claim, for the lines delivered,
is `["8.8.8.8"]`, but `readAndValidateIPs` returns the scanner error and no
list, so the valid line is not returned; hence it is false that the function
returns the list of the claim for every file that opens. -/
theorem readAndValidateIPs_valid_lines_counterexample :
    scenarioScanError.openFile "ips.txt" = Except.ok
      { lines := ["8.8.8.8", "not-an-ip"], scanErr := some "bufio.Scanner: token too long" } ∧
    loaderSpec scenarioScanError ["8.8.8.8", "not-an-ip"] = ["8.8.8.8"] ∧
    (readAndValidateIPs scenarioScanError "ips.txt").1 =
      Except.error "bufio.Scanner: token too long" ∧
    (readAndValidateIPs scenarioScanError "ips.txt").1 ≠
      Except.ok (loaderSpec scenarioScanError ["8.8.8.8", "not-an-ip"]) ∧
    ¬ (∀ (env : Env) (filename : String) (file : FileContent),
        env.openFile filename = Except.ok file →
        (readAndValidateIPs env filename).1 = Except.ok (loaderSpec env file.lines)) := by
  have hres : (readAndValidateIPs scenarioScanError "ips.txt").1 =
      Except.error "bufio.Scanner: token too long" := rfl
  refine ⟨rfl, by decide, hres, ?_, ?_⟩
  · rw [hres]
    exact fun h => Except.noConfusion h
  · intro hall
    have h := hall scenarioScanError "ips.txt"
      { lines := ["8.8.8.8", "not-an-ip"], scanErr := some "bufio.Scanner: token too long" } rfl
    rw [hres] at h
    exact Except.noConfusion h

/-- C8, as amended: for a file that opens, with `lines` the lines the scanner
delivers, whether or not scanning then stops with an error.  The log of
`readAndValidateIPs` consists of exactly the malformed-line diagnostics of the
specification: one for each delivered line whose trimmed text is non-empty and
does not parse, with the 1-based position of the line (blank lines counted) and
its trimmed text.  The positions in the log increase strictly (file order, no
position twice).  A blank line is neither kept nor malformed, a non-blank line
is exactly one of the two.  When scanning ends without error the output is the
trimmed text of the kept positions; when it stops with an error there is no
output list.  So whenever a list is returned it never holds the empty string,
and outputs and diagnostics together are as many as the non-blank lines. -/
theorem readAndValidateIPs_diagnostics (env : Env) (filename : String)
    (lines : List String) (scanErr : Option String)
    (hfile : env.openFile filename = Except.ok { lines := lines, scanErr := scanErr }) :
    (readAndValidateIPs env filename).2 =
      (diagnosticsSpec env lines).map (fun p => Event.logMalformed p.1 p.2) ∧
    malformedLog (readAndValidateIPs env filename).2 = diagnosticsSpec env lines ∧
    (∀ m t, (m, t) ∈ diagnosticsSpec env lines ↔
      1 ≤ m ∧ ∃ l, lines[m - 1]? = some l ∧
        env.trimSpace l ≠ "" ∧ env.parseIP (env.trimSpace l) = false ∧ t = env.trimSpace l) ∧
    ((diagnosticsSpec env lines).map Prod.fst).Pairwise (· < ·) ∧
    (scanErr = none → (readAndValidateIPs env filename).1 = Except.ok
      (((lines.enumFrom 1).filter fun p => isKept env p.2).map fun p => env.trimSpace p.2)) ∧
    (∀ err, scanErr = some err →
      (readAndValidateIPs env filename).1 = Except.error err) ∧
    (∀ l, env.trimSpace l = "" → isKept env l = false ∧ isMalformed env l = false) ∧
    (∀ l, env.trimSpace l ≠ "" → isKept env l = !isMalformed env l) ∧
    (∀ ips, (readAndValidateIPs env filename).1 = Except.ok ips →
      scanErr = none ∧ "" ∉ ips ∧
      ips.length + (malformedLog (readAndValidateIPs env filename).2).length =
        (lines.filter fun l => !isBlank env l).length) := by
  have hrun := readAndValidateIPs_eq env filename lines scanErr hfile
  have hlog : malformedLog ((diagnosticsSpec env lines).map
      (fun p => Event.logMalformed p.1 p.2)) = diagnosticsSpec env lines := by
    simp [malformedLog, List.filterMap_map, Function.comp_def]
  refine ⟨by rw [hrun], by rw [hrun]; exact hlog, ?_, ?_, ?_, ?_, ?_, ?_, ?_⟩
  · intro m t
    simp only [diagnosticsSpec, List.mem_map, List.mem_filter, Prod.exists, Prod.mk.injEq,
      List.mk_mem_enumFrom_iff_le_and_getElem?_sub, isMalformed, isBlank]
    constructor
    · rintro ⟨a, l, ⟨⟨ha, hl⟩, hm⟩, rfl, rfl⟩
      refine ⟨ha, l, hl, ?_, ?_, rfl⟩
      · simpa using (Bool.and_eq_true_iff.mp hm).1
      · simpa using (Bool.and_eq_true_iff.mp hm).2
    · rintro ⟨hm, l, hl, hne, hp, rfl⟩
      exact ⟨m, l, ⟨⟨hm, hl⟩, by simp [hne, hp]⟩, rfl, rfl⟩
  · have hsub : ((diagnosticsSpec env lines).map Prod.fst).Sublist
        ((lines.enumFrom 1).map Prod.fst) := by
      simp only [diagnosticsSpec, List.map_map]
      exact (List.filter_sublist _).map _
    rw [List.enumFrom_map_fst] at hsub
    exact List.Pairwise.sublist hsub (List.pairwise_lt_range' 1 lines.length)
  · intro hnone
    rw [hrun, hnone, kept_enumFrom]
    rfl
  · intro err herr
    rw [hrun, herr]
    rfl
  · intro l hl
    simp [isKept, isMalformed, isBlank, hl]
  · intro l hl
    simp [isKept, isMalformed, isBlank, hl]
  · intro ips hips
    rw [hrun] at hips
    cases scanErr with
    | some err => simp [loaderResult] at hips
    | none =>
      have hips1 : ips = loaderSpec env lines := by
        simpa [loaderResult] using hips.symm
      subst hips1
      refine ⟨rfl, ?_, ?_⟩
      · intro hmem
        simp [loaderSpec, List.mem_filter] at hmem
      · rw [hrun, hlog]
        clear hrun hips hlog hfile
        simp only [diagnosticsSpec, List.length_map]
        generalize 1 = k
        induction lines generalizing k with
        | nil => simp [loaderSpec]
        | cons text rest ih =>
          rw [loaderSpec_cons, List.enumFrom_cons, List.filter_cons, List.filter_cons]
          have ih1 := ih (k + 1)
          by_cases hb : env.trimSpace text = ""
          · simp only [isKept, isMalformed, isBlank, hb] at ih1 ⊢
            simpa using ih1
          · by_cases hp : env.parseIP (env.trimSpace text) = true
            · simp only [isKept, isMalformed, isBlank, hb, hp] at ih1 ⊢
              simp only [decide_False, Bool.not_false, Bool.and_self, if_true, Bool.not_true,
                Bool.and_false, Bool.false_eq_true, if_false, List.length_cons]
              omega
            · simp only [Bool.not_eq_true] at hp
              simp only [isKept, isMalformed, isBlank, hb, hp] at ih1 ⊢
              simp only [decide_False, Bool.not_false, Bool.and_self, if_true, Bool.not_true,
                Bool.and_false, Bool.false_eq_true, if_false, List.length_cons]
              omega

/-- Scenario A: the only diagnostic is the one for `not-an-ip`, at line 2. -/
theorem readAndValidateIPs_diagnostics_witness :
    (readAndValidateIPs scenarioA "ips.txt").2 =
      (diagnosticsSpec scenarioA ["8.8.8.8", "not-an-ip", "", "1.1.1.1"]).map
        (fun p => Event.logMalformed p.1 p.2) ∧
    diagnosticsSpec scenarioA ["8.8.8.8", "not-an-ip", "", "1.1.1.1"] = [(2, "not-an-ip")] :=
  ⟨(readAndValidateIPs_diagnostics scenarioA "ips.txt"
    ["8.8.8.8", "not-an-ip", "", "1.1.1.1"] none rfl).1, by decide⟩

/-- C8 as first stated fails: the scanner delivers `8.8.8.8` and `not-an-ip`
and then stops with an error.  Line 1 is not blank, yet it ends up neither in
the output, for `readAndValidateIPs` returns no list at all, nor in a
diagnostic: the only diagnostic is the one of line 2. -/
theorem readAndValidateIPs_diagnostics_counterexample :
    scenarioScanError.openFile "ips.txt" = Except.ok
      { lines := ["8.8.8.8", "not-an-ip"], scanErr := some "bufio.Scanner: token too long" } ∧
    isBlank scenarioScanError "8.8.8.8" = false ∧
    (∀ ips, (readAndValidateIPs scenarioScanError "ips.txt").1 ≠ Except.ok ips) ∧
    malformedLog (readAndValidateIPs scenarioScanError "ips.txt").2 = [(2, "not-an-ip")] ∧
    (∀ d ∈ malformedLog (readAndValidateIPs scenarioScanError "ips.txt").2, d.1 ≠ 1) := by
  have hres : (readAndValidateIPs scenarioScanError "ips.txt").1 =
      Except.error "bufio.Scanner: token too long" := rfl
  have hlog : malformedLog (readAndValidateIPs scenarioScanError "ips.txt").2 =
      [(2, "not-an-ip")] := by decide
  refine ⟨rfl, by decide, ?_, hlog, ?_⟩
  · intro ips h
    rw [hres] at h
    exact Except.noConfusion h
  · intro d hd
    rw [hlog, List.mem_singleton] at hd
    rw [hd]
    decide

/-! ## The map operations -/

theorem mapIndex_mapIncr (t : Tally) (k k1 : String) :
    mapIndex (mapIncr t k) k1 = mapIndex t k1 + if k = k1 then 1 else 0 := by
  induction t with
  | nil =>
    by_cases h : k = k1 <;> simp [mapIncr, mapIndex, h]
  | cons e rest ih =>
    obtain ⟨k0, v⟩ := e
    by_cases h0 : k0 = k
    · subst h0
      by_cases h1 : k0 = k1 <;> simp [mapIncr, mapIndex, h1]
    · by_cases h1 : k0 = k1
      · subst h1
        have h2 : ¬ k = k0 := fun h => h0 h.symm
        simp [mapIncr, mapIndex, h0, h2]
      · simp [mapIncr, mapIndex, h0, h1, ih]

theorem mem_mapKeys_mapIncr (t : Tally) (k k1 : String) :
    k1 ∈ mapKeys (mapIncr t k) ↔ k1 ∈ mapKeys t ∨ k1 = k := by
  induction t with
  | nil => simp [mapIncr, mapKeys]
  | cons e rest ih =>
    obtain ⟨k0, v⟩ := e
    simp only [mapKeys] at ih
    by_cases h0 : k0 = k
    · subst h0
      simp only [mapIncr, mapKeys, if_true, List.map_cons, List.mem_cons]
      tauto
    · simp only [mapIncr, mapKeys, h0, if_false, List.map_cons, List.mem_cons, ih]
      tauto

theorem nodup_mapKeys_mapIncr (t : Tally) (k : String) (h : (mapKeys t).Nodup) :
    (mapKeys (mapIncr t k)).Nodup := by
  induction t with
  | nil => simp [mapIncr, mapKeys]
  | cons e rest ih =>
    obtain ⟨k0, v⟩ := e
    simp only [mapKeys, List.map_cons, List.nodup_cons] at h
    by_cases h0 : k0 = k
    · subst h0
      simpa [mapIncr, mapKeys] using h
    · have hmem := mem_mapKeys_mapIncr rest k k0
      simp only [mapKeys] at hmem ih
      simp only [mapIncr, mapKeys, h0, if_false, List.map_cons, List.nodup_cons]
      refine ⟨?_, ih h.2⟩
      rw [hmem]
      rintro (h1 | h1)
      · exact h.1 h1
      · exact h0 h1

theorem mapTotal_mapIncr (t : Tally) (k : String) :
    mapTotal (mapIncr t k) = mapTotal t + 1 := by
  induction t with
  | nil => simp [mapIncr, mapTotal]
  | cons e rest ih =>
    obtain ⟨k0, v⟩ := e
    simp only [mapTotal] at ih
    by_cases h0 : k0 = k
    · simp [mapIncr, mapTotal, h0]
      omega
    · simp [mapIncr, mapTotal, h0, ih]
      omega

/-! ## The aggregation loop -/

theorem aggregate_countryCounts (rs : List ipResponse) (st : RunState) :
    (aggregate rs st).countryCounts = tallyOf rs st.countryCounts := by
  unfold tallyOf
  generalize hs0 : ({ countryCounts := st.countryCounts, calls := 0, trace := [] } : RunState)
    = s0
  have hcc : st.countryCounts = s0.countryCounts := by rw [← hs0]
  clear hs0
  induction rs generalizing st s0 with
  | nil => simpa [aggregate] using hcc
  | cons r rest ih =>
    by_cases hr : r.Status = "success"
    · simp only [aggregate, hr, ne_eq, not_true_eq_false, if_false]
      exact ih _ _ (by simp [hcc])
    · simp only [aggregate, hr, ne_eq, not_false_eq_true, if_true]
      exact ih _ _ (by simp [hcc])

theorem aggregate_calls (rs : List ipResponse) (st : RunState) :
    (aggregate rs st).calls = st.calls := by
  induction rs generalizing st with
  | nil => rfl
  | cons r rest ih =>
    by_cases hr : r.Status = "success" <;> simp [aggregate, hr, ih]

theorem aggregate_trace (rs : List ipResponse) (st : RunState) :
    (aggregate rs st).trace = st.trace ++
      (rs.filter fun r => !isSuccess r).map fun r => Event.logLookupFailed r.Message := by
  induction rs generalizing st with
  | nil => simp [aggregate]
  | cons r rest ih =>
    by_cases hr : r.Status = "success" <;> simp [aggregate, hr, ih, isSuccess]

theorem tallyOf_nil (t : Tally) : tallyOf [] t = t := rfl

theorem tallyOf_cons (r : ipResponse) (rs : List ipResponse) (t : Tally) :
    tallyOf (r :: rs) t = tallyOf rs (if isSuccess r then mapIncr t r.Country else t) := by
  by_cases hr : r.Status = "success"
  · simp only [tallyOf, aggregate, hr, isSuccess, ne_eq, not_true_eq_false, if_false,
      decide_True, if_true]
  · simp only [tallyOf, aggregate, hr, isSuccess, ne_eq, not_false_eq_true, if_true,
      decide_False, Bool.false_eq_true, if_false]
    rw [aggregate_countryCounts, aggregate_countryCounts]

theorem tallyOf_append (rs1 rs2 : List ipResponse) (t : Tally) :
    tallyOf (rs1 ++ rs2) t = tallyOf rs2 (tallyOf rs1 t) := by
  induction rs1 generalizing t with
  | nil => rfl
  | cons r rest ih => simp only [List.cons_append, tallyOf_cons, ih]

theorem mapIndex_tallyOf (rs : List ipResponse) (t : Tally) (C : String) :
    mapIndex (tallyOf rs t) C = mapIndex t C + rs.countP (isSuccessFor C) := by
  induction rs generalizing t with
  | nil => simp [tallyOf_nil]
  | cons r rest ih =>
    rw [tallyOf_cons, ih, List.countP_cons]
    by_cases hr : r.Status = "success"
    · by_cases hc : r.Country = C
      · simp [isSuccess, isSuccessFor, hr, hc, mapIndex_mapIncr]
        omega
      · simp [isSuccess, isSuccessFor, hr, hc, mapIndex_mapIncr]
    · simp [isSuccess, isSuccessFor, hr]

theorem mem_mapKeys_tallyOf (rs : List ipResponse) (t : Tally) (C : String) :
    C ∈ mapKeys (tallyOf rs t) ↔ C ∈ mapKeys t ∨ ∃ r ∈ rs, isSuccessFor C r = true := by
  induction rs generalizing t with
  | nil => simp [tallyOf_nil]
  | cons r rest ih =>
    rw [tallyOf_cons, ih]
    by_cases hr : r.Status = "success"
    · by_cases hc : r.Country = C
      · simp [isSuccess, isSuccessFor, hr, hc, mem_mapKeys_mapIncr]
      · have hc1 : ¬ C = r.Country := fun h => hc h.symm
        simp [isSuccess, isSuccessFor, hr, hc, hc1, mem_mapKeys_mapIncr]
    · simp [isSuccess, isSuccessFor, hr]

theorem nodup_mapKeys_tallyOf (rs : List ipResponse) (t : Tally) (h : (mapKeys t).Nodup) :
    (mapKeys (tallyOf rs t)).Nodup := by
  induction rs generalizing t with
  | nil => simpa [tallyOf_nil] using h
  | cons r rest ih =>
    rw [tallyOf_cons]
    apply ih
    by_cases hr : isSuccess r = true
    · simpa [hr] using nodup_mapKeys_mapIncr t r.Country h
    · simpa [hr] using h

theorem mapTotal_tallyOf (rs : List ipResponse) (t : Tally) :
    mapTotal (tallyOf rs t) = mapTotal t + rs.countP isSuccess := by
  induction rs generalizing t with
  | nil => simp [tallyOf_nil]
  | cons r rest ih =>
    rw [tallyOf_cons, ih, List.countP_cons]
    by_cases hr : isSuccess r = true
    · simp [hr, mapTotal_mapIncr]
      omega
    · simp [hr]

theorem tallyOf_filter (rs : List ipResponse) (t : Tally) :
    tallyOf rs t = tallyOf (rs.filter isSuccess) t := by
  induction rs generalizing t with
  | nil => rfl
  | cons r rest ih =>
    by_cases hr : isSuccess r = true
    · rw [List.filter_cons_of_pos hr, tallyOf_cons, tallyOf_cons, ih]
    · rw [List.filter_cons_of_neg hr, tallyOf_cons, ih]
      simp [hr]

/-! ## The batching loop -/

theorem batchAt_eq (ips : List String) (i : Nat) :
    batchAt ips i = (ips.drop i).take batchSize := by
  simp only [batchAt]
  rw [List.drop_take]
  split
  · rename_i h
    rw [List.take_of_length_le (by simp), List.take_of_length_le (by simp; omega)]
  · rw [Nat.add_sub_cancel_left]

theorem loopBody_trace (env : Env) (ips : List String) (i : Nat) (st : RunState) :
    (loopBody env ips i st).trace =
      st.trace ++ Event.lookup (batchAt ips i)
        (lookupBatch env st.calls (batchAt ips i)).toOption ::
        afterLookup i (lookupBatch env st.calls (batchAt ips i)) := by
  simp only [loopBody]
  cases lookupBatch env st.calls (batchAt ips i) with
  | error err => simp [afterLookup]
  | ok rs => simp [afterLookup, aggregate_trace]

theorem loopBody_calls (env : Env) (ips : List String) (i : Nat) (st : RunState) :
    (loopBody env ips i st).calls = st.calls + 1 := by
  simp only [loopBody]
  split <;> simp [aggregate_calls]

theorem loopBody_countryCounts (env : Env) (ips : List String) (i : Nat) (st : RunState) :
    (loopBody env ips i st).countryCounts =
      match lookupBatch env st.calls (batchAt ips i) with
      | Except.error _ => st.countryCounts
      | Except.ok rs => tallyOf rs st.countryCounts := by
  simp only [loopBody]
  cases lookupBatch env st.calls (batchAt ips i) with
  | error err => simp
  | ok rs => simp [aggregate_countryCounts]

theorem readers_afterLookup (i : Nat) (r : Except String (List ipResponse)) :
    lookupCalls (afterLookup i r) = [] ∧ printedLines (afterLookup i r) = [] ∧
    malformedLog (afterLookup i r) = [] ∧
    pacing (afterLookup i r) = if r.toOption.isSome then [some sleepMillis] else [] := by
  cases r with
  | error err => simp [afterLookup, lookupCalls, printedLines, malformedLog, pacing,
      Except.toOption]
  | ok rs =>
    simp only [afterLookup, lookupCalls, printedLines, malformedLog, pacing,
      List.filterMap_append, List.filterMap_map, Except.toOption]
    simp [Function.comp_def]

theorem loopBody_inv (env : Env) (ips : List String) (log : List Event) (i : Nat)
    (st : RunState) (hi : i < ips.length) (h : LoopInv env ips log i st) :
    LoopInv env ips log (i + batchSize) (loopBody env ips i st) := by
  obtain ⟨hmod, -, hcalls, hlook, htally, hprint, hmal, hpace⟩ := h
  have hb : batchSize = 100 := rfl
  have hdiv : (i + batchSize) / batchSize = i / batchSize + 1 := by
    rw [hb]; omega
  have hchunk : batchAt ips i = chunkAt ips (i / batchSize) := by
    have : i / batchSize * batchSize = i := by rw [hb] at hmod ⊢; omega
    rw [batchAt_eq, chunkAt, this]
  obtain ⟨ha1, ha2, ha3, ha4⟩ := readers_afterLookup i
    (lookupBatch env st.calls (batchAt ips i))
  have hcallsNew : lookupCalls (loopBody env ips i st).trace =
      lookupCalls st.trace ++ [callAt env ips (i / batchSize)] := by
    rw [loopBody_trace, lookupCalls, List.filterMap_append, List.filterMap_cons]
    simp only []
    rw [← lookupCalls, ← lookupCalls, ha1, hcalls, hchunk, callAt]
  refine ⟨?_, ?_, ?_, ?_, ?_, ?_, ?_, ?_⟩
  · rw [hb] at hmod ⊢; omega
  · omega
  · rw [loopBody_calls, hcalls, hdiv]
  · rw [hcallsNew, hlook, hdiv, List.range_succ, List.map_append, List.map_singleton]
  · rw [loopBody_countryCounts, lookupResults, hcallsNew, List.filterMap_append,
      ← lookupResults, List.flatten_append, tallyOf_append, ← htally, hcalls, hchunk]
    cases hres : lookupBatch env (i / batchSize) (chunkAt ips (i / batchSize)) with
    | error err => simp [callAt, hres, Except.toOption, tallyOf_nil]
    | ok rs => simp [callAt, hres, Except.toOption]
  · rw [loopBody_trace, printedLines, List.filterMap_append, List.filterMap_cons]
    simp only []
    rw [← printedLines, ← printedLines, ha2, hprint]
    rfl
  · rw [loopBody_trace, malformedLog, List.filterMap_append, List.filterMap_cons]
    simp only []
    rw [← malformedLog, ← malformedLog, ha3, hmal]
    simp
  · rw [hcallsNew, List.flatMap_append, ← hpace, loopBody_trace, pacing, List.filterMap_append,
      List.filterMap_cons]
    simp only []
    rw [← pacing, ← pacing, ha4, hcalls, hchunk]
    cases hres : lookupBatch env (i / batchSize) (chunkAt ips (i / batchSize)) with
    | error err => simp [callAt, hres, Except.toOption]
    | ok rs => simp [callAt, hres, Except.toOption]

theorem batchLoop_invariant (env : Env) (ips : List String) (P : Nat → RunState → Prop)
    (hstep : ∀ i st, i < ips.length → P i st → P (i + batchSize) (loopBody env ips i st)) :
    ∀ (fuel i : Nat) (st : RunState), ips.length ≤ i + fuel → P i st →
      ∃ i1 st1, batchLoop env ips fuel i st = some st1 ∧ ips.length ≤ i1 ∧ P i1 st1 := by
  intro fuel
  induction fuel with
  | zero =>
    intro i st hfuel hP
    have hi : ¬ i < ips.length := by omega
    exact ⟨i, st, by simp [batchLoop, hi], by omega, hP⟩
  | succ fuel ih =>
    intro i st hfuel hP
    by_cases hi : i < ips.length
    · have hb : batchSize = 100 := rfl
      obtain ⟨i1, st1, hrun, hle, hP1⟩ :=
        ih (i + batchSize) (loopBody env ips i st) (by rw [hb]; omega) (hstep i st hi hP)
      exact ⟨i1, st1, by simp [batchLoop, hi, hrun], hle, hP1⟩
    · exact ⟨i, st, by simp [batchLoop, hi], by omega, hP⟩

/-! ## The chunks -/

theorem chunkCount_spec (L : Nat) :
    L ≤ chunkCount L * batchSize ∧ chunkCount L * batchSize < L + batchSize := by
  have hb : batchSize = 100 := rfl
  simp only [chunkCount, hb]
  omega

theorem length_chunkAt (ips : List String) (k : Nat) :
    (chunkAt ips k).length = min batchSize (ips.length - k * batchSize) := by
  simp [chunkAt]

theorem flatten_chunks (ips : List String) (n : Nat) :
    ((List.range n).map (chunkAt ips)).flatten = ips.take (n * batchSize) := by
  induction n with
  | zero => simp
  | succ n ih =>
    rw [List.range_succ, List.map_append, List.flatten_append, ih, Nat.succ_mul, List.take_add]
    simp [chunkAt]

theorem flatten_all_chunks (ips : List String) :
    ((List.range (chunkCount ips.length)).map (chunkAt ips)).flatten = ips := by
  rw [flatten_chunks]
  exact List.take_of_length_le (chunkCount_spec ips.length).1

theorem chunk_sizes (ips : List String) (k : Nat) (hk : k < chunkCount ips.length) :
    0 < (chunkAt ips k).length ∧ (chunkAt ips k).length ≤ batchSize ∧
    (k + 1 < chunkCount ips.length → (chunkAt ips k).length = batchSize) := by
  have hb : batchSize = 100 := rfl
  rw [length_chunkAt]
  simp only [chunkCount, hb] at hk ⊢
  omega

/-! ## The whole run -/

theorem loader_log (env : Env) (filename : String) :
    ∃ ds : List (Nat × String),
      (readAndValidateIPs env filename).2 = ds.map fun p => Event.logMalformed p.1 p.2 := by
  unfold readAndValidateIPs
  cases env.openFile filename with
  | error err => exact ⟨[], rfl⟩
  | ok file =>
    obtain ⟨lines, scanErr⟩ := file
    refine ⟨((lines.enumFrom 1).filter fun p => isMalformed env p.2).map
      fun p => (p.1, env.trimSpace p.2), ?_⟩
    cases scanErr <;> simp [scanLoop_eq, List.map_map, Function.comp_def]

theorem readers_loader_log (env : Env) (filename : String) :
    lookupCalls (readAndValidateIPs env filename).2 = [] ∧
    printedLines (readAndValidateIPs env filename).2 = [] ∧
    pacing (readAndValidateIPs env filename).2 = [] := by
  obtain ⟨ds, hds⟩ := loader_log env filename
  rw [hds]
  simp [lookupCalls, printedLines, pacing, List.filterMap_map, Function.comp_def]

theorem readers_report (env : Env) (st : RunState) :
    lookupCalls (report env st).trace = lookupCalls st.trace ∧
    pacing (report env st).trace = pacing st.trace ∧
    malformedLog (report env st).trace = malformedLog st.trace ∧
    printedLines (report env st).trace = printedLines st.trace ++
      (env.rangeOrder st.countryCounts).map (fun e => formatLine e.1 e.2) ∧
    (report env st).countryCounts = st.countryCounts := by
  have hmap : ∀ l : Tally, l.filterMap (fun x => some (formatLine x.1 x.2)) =
      l.map fun e => formatLine e.1 e.2 := by
    intro l
    induction l with
    | nil => rfl
    | cons e l ih => simp [List.filterMap_cons, ih]
  simp [report, lookupCalls, printedLines, pacing, malformedLog, List.filterMap_append,
    List.filterMap_map, Function.comp_def, hmap]

theorem main_run (env : Env) (prog filename : String) (rest ips : List String)
    (log : List Event) (hload : readAndValidateIPs env filename = (Except.ok ips, log))
    (hne : ips ≠ []) :
    ∃ st, batchLoop env ips ips.length 0 { countryCounts := [], calls := 0, trace := log }
        = some st ∧
      main env prog (filename :: rest) = some
        { exitCode := 0, trace := (report env st).trace, countryCounts := st.countryCounts } ∧
      LoopInv env ips log (chunkCount ips.length * batchSize) st := by
  have hlog := readers_loader_log env filename
  rw [hload] at hlog
  obtain ⟨hl1, hl2, hl3⟩ := hlog
  have hb : batchSize = 100 := rfl
  have hinit : LoopInv env ips log 0 { countryCounts := [], calls := 0, trace := log } := by
    refine ⟨rfl, by rw [hb]; omega, rfl, ?_, ?_, hl2, rfl, ?_⟩
    · simpa using hl1
    · simp [lookupResults, hl1, tallyOf_nil]
    · simp [hl1, hl3]
  obtain ⟨i1, st1, hrun, hle, hinv⟩ := batchLoop_invariant env ips (LoopInv env ips log)
    (fun i st hi h => loopBody_inv env ips log i st hi h) ips.length 0 _ (by omega) hinit
  have hi1 : i1 = chunkCount ips.length * batchSize := by
    obtain ⟨hmod, hlt, -⟩ := hinv
    simp only [chunkCount, hb] at hmod hlt ⊢
    omega
  subst hi1
  refine ⟨st1, hrun, ?_, hinv⟩
  have hlen : ¬ ips.length = 0 := by
    intro h
    exact hne (List.length_eq_zero.mp h)
  simp only [main, hload, hlen, if_false, hrun]
  simp [report]

theorem main_outcome (env : Env) (prog filename : String) (rest ips : List String)
    (log : List Event) (hload : readAndValidateIPs env filename = (Except.ok ips, log)) :
    ∃ out, main env prog (filename :: rest) = some out ∧
      lookupCalls out.trace = (List.range (chunkCount ips.length)).map (callAt env ips) ∧
      out.countryCounts = tallyOf (lookupResults out.trace).flatten [] ∧
      printedLines out.trace =
        (env.rangeOrder out.countryCounts).map (fun e => formatLine e.1 e.2) ∧
      malformedLog out.trace = malformedLog log ∧
      (pacing out.trace = (lookupCalls out.trace).flatMap fun c =>
        if c.2.isSome then [none, some sleepMillis] else [none]) ∧
      out.exitCode = if ips = [] then 1 else 0 := by
  by_cases hne : ips = []
  · subst hne
    have hlog := readers_loader_log env filename
    rw [hload] at hlog
    obtain ⟨hl1, hl2, hl3⟩ := hlog
    have hnil : env.rangeOrder [] = [] := List.Perm.eq_nil (env.rangeOrder_perm [])
    refine ⟨{ exitCode := 1,
              trace := log ++ [Event.fatal "No valid IP addresses found in file."],
              countryCounts := [] }, by simp [main, hload], ?_, ?_, ?_, ?_, ?_, by simp⟩
    · have : lookupCalls (log ++ [Event.fatal "No valid IP addresses found in file."]) = [] := by
        rw [lookupCalls, List.filterMap_append, ← lookupCalls, hl1]; rfl
      simpa [chunkCount, batchSize] using this
    · have : lookupCalls (log ++ [Event.fatal "No valid IP addresses found in file."]) = [] := by
        rw [lookupCalls, List.filterMap_append, ← lookupCalls, hl1]; rfl
      simp [lookupResults, this, tallyOf_nil]
    · show printedLines (log ++ _) = List.map _ (env.rangeOrder [])
      rw [hnil, printedLines, List.filterMap_append, ← printedLines, hl2]; rfl
    · show malformedLog (log ++ _) = _
      rw [malformedLog, List.filterMap_append, ← malformedLog]
      simp
    · have hc : lookupCalls (log ++ [Event.fatal "No valid IP addresses found in file."]) = [] := by
        rw [lookupCalls, List.filterMap_append, ← lookupCalls, hl1]; rfl
      show pacing (log ++ _) = List.flatMap (lookupCalls (log ++ _)) _
      rw [hc, pacing, List.filterMap_append, ← pacing, hl3]; rfl
  · obtain ⟨st, -, hmain, -, -, -, hlook, htally, hprint, hmal, hpace⟩ :=
      main_run env prog filename rest ips log hload hne
    obtain ⟨hr1, hr2, hr3, hr4, -⟩ := readers_report env st
    refine ⟨_, hmain, ?_, ?_, ?_, ?_, ?_, by simp [hne]⟩
    · show lookupCalls (report env st).trace = _
      rw [hr1, hlook, Nat.mul_div_cancel _ (by decide : 0 < batchSize)]
    · show st.countryCounts = tallyOf (lookupResults (report env st).trace).flatten []
      rw [lookupResults, hr1, ← lookupResults, ← htally]
    · show printedLines (report env st).trace = _
      rw [hr4, hprint]; rfl
    · show malformedLog (report env st).trace = _
      rw [hr3, hmal]
    · show pacing (report env st).trace = List.flatMap (lookupCalls (report env st).trace) _
      rw [hr1, hr2, hpace]

theorem main_any (env : Env) (prog : String) (argv : List String) :
    ∃ out, main env prog argv = some out ∧
      out.countryCounts = tallyOf (lookupResults out.trace).flatten [] ∧
      printedLines out.trace =
        (env.rangeOrder out.countryCounts).map (fun e => formatLine e.1 e.2) := by
  have hnil : env.rangeOrder [] = [] := List.Perm.eq_nil (env.rangeOrder_perm [])
  cases argv with
  | nil =>
    refine ⟨{ exitCode := 1, trace := [Event.usage prog], countryCounts := [] }, rfl, rfl, ?_⟩
    show printedLines [Event.usage prog] = List.map _ (env.rangeOrder [])
    rw [hnil]; rfl
  | cons filename rest =>
    cases hload : readAndValidateIPs env filename with
    | mk res log =>
      cases res with
      | error err =>
        have hlog := readers_loader_log env filename
        rw [hload] at hlog
        obtain ⟨hl1, hl2, -⟩ := hlog
        refine ⟨{ exitCode := 1,
                  trace := log ++ [Event.fatal ("Error reading IP file: " ++ err)],
                  countryCounts := [] }, by simp [main, hload], ?_, ?_⟩
        · have : lookupCalls (log ++ [Event.fatal ("Error reading IP file: " ++ err)]) = [] := by
            rw [lookupCalls, List.filterMap_append, ← lookupCalls, hl1]; rfl
          simp [lookupResults, this, tallyOf_nil]
        · show printedLines (log ++ _) = List.map _ (env.rangeOrder [])
          rw [hnil, printedLines, List.filterMap_append, ← printedLines, hl2]; rfl
      | ok ips =>
        obtain ⟨out, hout, -, htally, hprint, -⟩ :=
          main_outcome env prog filename rest ips log hload
        exact ⟨out, hout, htally, hprint⟩

/-- The fuel `main` gives to the batching loop is always enough: `main` returns
an outcome for every environment and every argument list. -/
theorem main_total (env : Env) (prog : String) (argv : List String) :
    ∃ out, main env prog argv = some out := by
  obtain ⟨out, hout, -⟩ := main_any env prog argv
  exact ⟨out, hout⟩

/-! ## The claims on the batching loop -/

/-- C2: for an address list of length `L` returned by the Loader, `main` makes
exactly `ceil(L / 100)` calls of `lookupBatch`; the `k`-th chunk passed is the
`k`-th block of 100 consecutive addresses; every chunk is non-empty and has at
most 100 addresses, every chunk but the last has exactly 100, and the chunks
concatenated in call order are the original list. -/
theorem main_batches (env : Env) (prog filename : String) (rest ips : List String)
    (log : List Event) (hload : readAndValidateIPs env filename = (Except.ok ips, log)) :
    ∃ out, main env prog (filename :: rest) = some out ∧
      (lookupChunks out.trace).length = chunkCount ips.length ∧
      (ips.length ≤ chunkCount ips.length * 100 ∧
        chunkCount ips.length * 100 < ips.length + 100) ∧
      lookupChunks out.trace = (List.range (chunkCount ips.length)).map (chunkAt ips) ∧
      (∀ c ∈ lookupChunks out.trace, 0 < c.length ∧ c.length ≤ 100) ∧
      (∀ c ∈ (lookupChunks out.trace).dropLast, c.length = 100) ∧
      (lookupChunks out.trace).flatten = ips := by
  obtain ⟨out, hout, hlook, -⟩ := main_outcome env prog filename rest ips log hload
  have hchunks : lookupChunks out.trace =
      (List.range (chunkCount ips.length)).map (chunkAt ips) := by
    rw [lookupChunks, hlook, List.map_map]
    rfl
  refine ⟨out, hout, ?_, chunkCount_spec ips.length, hchunks, ?_, ?_, ?_⟩
  · rw [hchunks]; simp
  · intro c hc
    rw [hchunks] at hc
    obtain ⟨k, hk, rfl⟩ := List.mem_map.mp hc
    have := chunk_sizes ips k (List.mem_range.mp hk)
    exact ⟨this.1, this.2.1⟩
  · intro c hc
    rw [hchunks] at hc
    cases hn : chunkCount ips.length with
    | zero => simp [hn] at hc
    | succ n =>
      rw [hn, List.range_succ, List.map_append, List.map_singleton, List.dropLast_concat] at hc
      obtain ⟨k, hk, rfl⟩ := List.mem_map.mp hc
      have hk1 := List.mem_range.mp hk
      exact (chunk_sizes ips k (by omega)).2.2 (by omega)
  · rw [hchunks]; exact flatten_all_chunks ips

/-- A run over 201 addresses makes three calls, with 100, 100 and 1
addresses. -/
theorem main_batches_witness :
    (∃ out, main scenarioFailSecond "geoip" ["ips.txt"] = some out ∧
      (lookupChunks out.trace).length = chunkCount threeChunkLines.length ∧
      (threeChunkLines.length ≤ chunkCount threeChunkLines.length * 100 ∧
        chunkCount threeChunkLines.length * 100 < threeChunkLines.length + 100) ∧
      lookupChunks out.trace =
        (List.range (chunkCount threeChunkLines.length)).map (chunkAt threeChunkLines) ∧
      (∀ c ∈ lookupChunks out.trace, 0 < c.length ∧ c.length ≤ 100) ∧
      (∀ c ∈ (lookupChunks out.trace).dropLast, c.length = 100) ∧
      (lookupChunks out.trace).flatten = threeChunkLines) ∧
    chunkCount threeChunkLines.length = 3 ∧
    (List.range 3).map (chunkAt threeChunkLines) =
      [List.replicate 100 "8.8.8.8", List.replicate 100 "1.1.1.1", ["9.9.9.9"]] :=
  ⟨main_batches scenarioFailSecond "geoip" "ips.txt" [] threeChunkLines []
    (by rfl), by decide,
    by decide⟩

/-- C3: at the end of every run the count of every country `C` is the number of
outcomes, among the result lists `lookupBatch` returned without error, whose
status is exactly `"success"` and whose country is `C`; `C` is a key of the
tally exactly when there is such an outcome, and no key occurs twice.  When the
Loader returned a list, the calls recorded are those of its chunks, each with
what `lookupBatch` returned for it.  When a single call was made and it returned
two successes for `United States`, the final tally is `United States: 2` and
nothing else. -/
theorem main_tally (env : Env) (prog : String) (argv : List String) :
    ∃ out, main env prog argv = some out ∧
      (∀ C, mapIndex out.countryCounts C =
        (lookupResults out.trace).flatten.countP
          (fun r => decide (r.Status = "success") && decide (r.Country = C))) ∧
      (∀ C, C ∈ mapKeys out.countryCounts ↔
        ∃ rs ∈ lookupResults out.trace, ∃ r ∈ rs, r.Status = "success" ∧ r.Country = C) ∧
      (mapKeys out.countryCounts).Nodup ∧
      (∀ filename rest ips log, argv = filename :: rest →
        readAndValidateIPs env filename = (Except.ok ips, log) →
        lookupCalls out.trace = (List.range (chunkCount ips.length)).map (callAt env ips)) ∧
      (∀ chunk m1 m2, lookupCalls out.trace =
          [(chunk, some [{ Status := "success", Country := "United States", Message := m1 },
            { Status := "success", Country := "United States", Message := m2 }])] →
        out.countryCounts = [("United States", 2)]) := by
  obtain ⟨out, hout, htally, -⟩ := main_any env prog argv
  refine ⟨out, hout, ?_, ?_, ?_, ?_, ?_⟩
  · intro C
    rw [htally, mapIndex_tallyOf]
    simp only [mapIndex, Nat.zero_add]
    rfl
  · intro C
    rw [htally, mem_mapKeys_tallyOf]
    simp only [mapKeys, List.map_nil, List.not_mem_nil, false_or, List.mem_flatten,
      isSuccessFor, Bool.and_eq_true, decide_eq_true_eq]
    constructor
    · rintro ⟨r, ⟨rs, hrs, hr⟩, h⟩
      exact ⟨rs, hrs, r, hr, h⟩
    · rintro ⟨rs, hrs, r, hr, h⟩
      exact ⟨r, ⟨rs, hrs, hr⟩, h⟩
  · rw [htally]
    exact nodup_mapKeys_tallyOf _ _ (by simp [mapKeys])
  · intro filename rest ips log hargv hload
    subst hargv
    obtain ⟨out1, hout1, hlook, -⟩ := main_outcome env prog filename rest ips log hload
    rw [hout] at hout1
    rw [Option.some.inj hout1]
    exact hlook
  · intro chunk m1 m2 hcalls
    rw [htally, lookupResults, hcalls]
    simp [tallyOf, aggregate, mapIncr]

/-- Scenario B: one chunk, two successes for `United States`; the final tally
is `United States: 2`. -/
theorem main_tally_witness :
    ∃ out, main scenarioB "geoip" ["ips.txt"] = some out ∧
      out.countryCounts = [("United States", 2)] ∧
      mapIndex out.countryCounts "United States" = 2 := by
  obtain ⟨out, hout, -, -, -, hcalls, hB⟩ := main_tally scenarioB "geoip" ["ips.txt"]
  have h2 := hB ["8.8.8.8", "8.8.4.4"] "" ""
    (by rw [hcalls "ips.txt" [] ["8.8.8.8", "8.8.4.4"] [] rfl rfl]; decide)
  exact ⟨out, hout, h2, by rw [h2]; decide⟩

/-- C4: a chunk whose lookup returns an error is looked up once, is logged, and
leaves the tally and the call sequence otherwise as they were; whatever the
service does, `main` looks up every chunk of the list exactly once, in order
(the call records are those of the chunks `0 .. ceil(L/100) - 1`), and the final
tally is the aggregation, from the empty tally, of the result lists of the
chunks that were answered without error. -/
theorem failed_chunk_is_skipped (env : Env) (prog filename : String)
    (rest ips : List String) (log : List Event)
    (hload : readAndValidateIPs env filename = (Except.ok ips, log)) :
    (∀ i st err, lookupBatch env st.calls (batchAt ips i) = Except.error err →
      (loopBody env ips i st).countryCounts = st.countryCounts ∧
      (loopBody env ips i st).trace =
        st.trace ++ [Event.lookup (batchAt ips i) none, Event.logBatchError i err]) ∧
    ∃ out, main env prog (filename :: rest) = some out ∧
      lookupCalls out.trace = (List.range (chunkCount ips.length)).map (callAt env ips) ∧
      out.countryCounts =
        tallyOf ((lookupCalls out.trace).filterMap Prod.snd).flatten [] := by
  constructor
  · intro i st err herr
    constructor
    · rw [loopBody_countryCounts, herr]
    · rw [loopBody_trace, herr]
      rfl
  · obtain ⟨out, hout, hlook, htally, -⟩ := main_outcome env prog filename rest ips log hload
    exact ⟨out, hout, hlook, htally⟩

/-- Three chunks, the second of which fails: all three are looked up once, and
the first and the third are tallied. -/
theorem failed_chunk_is_skipped_witness :
    ∃ out, main scenarioFailSecond "geoip" ["ips.txt"] = some out ∧
      lookupCalls out.trace =
        [(List.replicate 100 "8.8.8.8", some [ipResponse.mk "success" "United States" ""]),
         (List.replicate 100 "1.1.1.1", none),
         (["9.9.9.9"], some [ipResponse.mk "success" "Switzerland" ""])] ∧
      out.countryCounts = [("United States", 1), ("Switzerland", 1)] := by
  obtain ⟨out, hout, hcalls, htally⟩ :=
    (failed_chunk_is_skipped scenarioFailSecond "geoip" "ips.txt" [] threeChunkLines []
      (by rfl)).2
  have hc : (List.range (chunkCount threeChunkLines.length)).map
      (callAt scenarioFailSecond threeChunkLines) =
      [(List.replicate 100 "8.8.8.8", some [ipResponse.mk "success" "United States" ""]),
       (List.replicate 100 "1.1.1.1", none),
       (["9.9.9.9"], some [ipResponse.mk "success" "Switzerland" ""])] := by
    decide
  rw [hc] at hcalls
  refine ⟨out, hout, hcalls, ?_⟩
  rw [htally, hcalls]
  decide

/-- In every run a pause of 1500 ms follows exactly the lookups that returned
without error: the calls and pauses, in order, are one call per chunk, each
followed by a pause when it returned results and by nothing when it returned
an error. -/
theorem main_pacing (env : Env) (prog filename : String) (rest ips : List String)
    (log : List Event) (hload : readAndValidateIPs env filename = (Except.ok ips, log)) :
    ∃ out, main env prog (filename :: rest) = some out ∧
      pacing out.trace = ((List.range (chunkCount ips.length)).map (callAt env ips)).flatMap
        fun c => if c.2.isSome then [none, some 1500] else [none] := by
  obtain ⟨out, hout, hlook, -, -, -, hpace, -⟩ :=
    main_outcome env prog filename rest ips log hload
  exact ⟨out, hout, by rw [hpace, hlook]; rfl⟩

/-- C5, the code at the failing input: with 101 addresses and a first lookup
that returns an error, the run is: lookup of the first chunk, its diagnostic,
lookup of the second chunk, pause, report.  No pause stands between the two
lookups. -/
theorem pause_skipped_after_failed_lookup :
    main scenarioFailFirst "geoip" ["ips.txt"] = some
      { exitCode := 0,
        trace := [Event.lookup (List.replicate 100 "8.8.8.8") none,
          Event.logBatchError 0 "HTTP POST error: connection refused",
          Event.lookup ["8.8.8.8"] (some [ipResponse.mk "success" "United States" ""]),
          Event.sleep 1500,
          Event.print "United States: 1"],
        countryCounts := [("United States", 1)] } ∧
    (main scenarioFailFirst "geoip" ["ips.txt"]).map (fun out => pacing out.trace) =
      some [none, none, some 1500] := by
  constructor <;> decide

/-- C6: when the Loader returns an empty list, and when it returns an error,
`main` ends with a `log.Fatalf` call, hence with exit status 1, and has made no
lookup, no pause and printed no line. -/
theorem main_fatal_without_addresses (env : Env) (prog filename : String)
    (rest : List String) (res : Except String (List String)) (log : List Event)
    (hload : readAndValidateIPs env filename = (res, log))
    (hres : res = Except.ok [] ∨ ∃ err, res = Except.error err) :
    ∃ out, main env prog (filename :: rest) = some out ∧
      out.exitCode = 1 ∧ out.exitCode ≠ 0 ∧
      (∃ msg, out.trace = log ++ [Event.fatal msg]) ∧
      lookupCalls out.trace = [] ∧ pacing out.trace = [] ∧ printedLines out.trace = [] ∧
      out.countryCounts = [] := by
  have hlog := readers_loader_log env filename
  rw [hload] at hlog
  obtain ⟨hl1, hl2, hl3⟩ := hlog
  have hreaders : ∀ msg, lookupCalls (log ++ [Event.fatal msg]) = [] ∧
      pacing (log ++ [Event.fatal msg]) = [] ∧ printedLines (log ++ [Event.fatal msg]) = [] := by
    intro msg
    refine ⟨?_, ?_, ?_⟩
    · rw [lookupCalls, List.filterMap_append, ← lookupCalls, hl1]; rfl
    · rw [pacing, List.filterMap_append, ← pacing, hl3]; rfl
    · rw [printedLines, List.filterMap_append, ← printedLines, hl2]; rfl
  rcases hres with rfl | ⟨err, rfl⟩
  · obtain ⟨h1, h2, h3⟩ := hreaders "No valid IP addresses found in file."
    exact ⟨{ exitCode := 1,
             trace := log ++ [Event.fatal "No valid IP addresses found in file."],
             countryCounts := [] }, by simp [main, hload], rfl, Nat.one_ne_zero, ⟨_, rfl⟩,
      h1, h2, h3, rfl⟩
  · obtain ⟨h1, h2, h3⟩ := hreaders ("Error reading IP file: " ++ err)
    exact ⟨{ exitCode := 1,
             trace := log ++ [Event.fatal ("Error reading IP file: " ++ err)],
             countryCounts := [] }, by simp [main, hload], rfl, Nat.one_ne_zero, ⟨_, rfl⟩,
      h1, h2, h3, rfl⟩

/-- A file without any valid address: the run is the two diagnostics and the
fatal message. -/
theorem main_fatal_without_addresses_witness :
    readAndValidateIPs scenarioNoAddress "ips.txt" =
      (Except.ok [], [Event.logMalformed 1 "not-an-ip", Event.logMalformed 3 "300.1.1.1"]) ∧
    ∃ out, main scenarioNoAddress "geoip" ["ips.txt"] = some out ∧
      out.exitCode = 1 ∧ out.exitCode ≠ 0 ∧
      (∃ msg, out.trace =
        [Event.logMalformed 1 "not-an-ip", Event.logMalformed 3 "300.1.1.1"] ++
          [Event.fatal msg]) ∧
      lookupCalls out.trace = [] ∧ pacing out.trace = [] ∧ printedLines out.trace = [] ∧
      out.countryCounts = [] :=
  ⟨rfl, main_fatal_without_addresses scenarioNoAddress "geoip" "ips.txt" [] (Except.ok [])
    [Event.logMalformed 1 "not-an-ip", Event.logMalformed 3 "300.1.1.1"] rfl (Or.inl rfl)⟩

/-- C7: for every result list and every loop state, the aggregation loop keeps
every key of the tally and lowers no count; its effect on the tally is that of
the elements whose status is exactly `"success"` alone, so a list without such
an element leaves the tally as it was; this covers the statuses `fail`, the
empty string and `success` in another case.  For the single result of
scenario C an empty tally stays empty. -/
theorem aggregate_monotone (rs : List ipResponse) (st : RunState) :
    (∀ k ∈ mapKeys st.countryCounts, k ∈ mapKeys (aggregate rs st).countryCounts) ∧
    (∀ k, mapIndex st.countryCounts k ≤ mapIndex (aggregate rs st).countryCounts k) ∧
    (aggregate rs st).countryCounts =
      (aggregate (rs.filter fun r => decide (r.Status = "success")) st).countryCounts ∧
    ((∀ r ∈ rs, r.Status ≠ "success") → (aggregate rs st).countryCounts = st.countryCounts) ∧
    (∀ r : ipResponse, r.Status ∈ ["fail", "", "Success", "SUCCESS", "success ", "ok"] →
      (aggregate [r] st).countryCounts = st.countryCounts) ∧
    (aggregate [{ Status := "fail", Country := "", Message := "private range" }]
      { countryCounts := [], calls := st.calls, trace := st.trace }).countryCounts = [] := by
  have hnone : ∀ l : List ipResponse, (∀ r ∈ l, r.Status ≠ "success") →
      (aggregate l st).countryCounts = st.countryCounts := by
    intro l hl
    rw [aggregate_countryCounts, tallyOf_filter]
    have : l.filter isSuccess = [] := by
      rw [List.filter_eq_nil_iff]
      intro r hr
      simpa [isSuccess] using hl r hr
    rw [this, tallyOf_nil]
  refine ⟨?_, ?_, ?_, hnone rs, ?_, ?_⟩
  · intro k hk
    rw [aggregate_countryCounts, mem_mapKeys_tallyOf]
    exact Or.inl hk
  · intro k
    rw [aggregate_countryCounts, mapIndex_tallyOf]
    exact Nat.le_add_right _ _
  · rw [aggregate_countryCounts, aggregate_countryCounts]
    exact tallyOf_filter rs st.countryCounts
  · intro r hr
    apply hnone
    intro r1 hr1
    rw [List.mem_singleton] at hr1
    subst hr1
    intro hs
    rw [hs] at hr
    revert hr
    decide
  · rfl

/-- Scenario C: the single result `fail` / `private range` leaves the empty
tally empty, also in a whole run, which logs one diagnostic and prints no line;
a result with status `Success` changes nothing either. -/
theorem aggregate_monotone_witness :
    (aggregate [{ Status := "fail", Country := "", Message := "private range" }]
      { countryCounts := [], calls := 0, trace := [] }).countryCounts = [] ∧
    (aggregate [{ Status := "Success", Country := "France", Message := "" }]
      { countryCounts := [("France", 3)], calls := 1, trace := [] }).countryCounts =
        [("France", 3)] ∧
    main scenarioC "geoip" ["ips.txt"] = some
      { exitCode := 0,
        trace := [Event.lookup ["10.0.0.1"] (some [ipResponse.mk "fail" "" "private range"]),
          Event.logLookupFailed "private range", Event.sleep 1500],
        countryCounts := [] } :=
  ⟨(aggregate_monotone [] { countryCounts := [], calls := 0, trace := [] }).2.2.2.2.2,
   (aggregate_monotone [] { countryCounts := [("France", 3)], calls := 1, trace := [] }).2.2.2.2.1
     { Status := "Success", Country := "France", Message := "" } (by decide),
   by decide⟩

/-- C9: in every run the lines printed are, up to order, exactly the texts
`country: count` of the entries of the final tally, one per entry; the keys of
the tally are pairwise distinct, so the number of lines is the number of
distinct countries, and an empty tally prints no line. -/
theorem report_prints_tally (env : Env) (prog : String) (argv : List String) :
    ∃ out, main env prog argv = some out ∧
      Multiset.ofList (printedLines out.trace) =
        Multiset.ofList (out.countryCounts.map fun e => e.1 ++ ": " ++ toString e.2) ∧
      (printedLines out.trace).length = (mapKeys out.countryCounts).toFinset.card ∧
      (mapKeys out.countryCounts).Nodup ∧
      (out.countryCounts = [] → printedLines out.trace = []) := by
  obtain ⟨out, hout, htally, hprint⟩ := main_any env prog argv
  have hperm := env.rangeOrder_perm out.countryCounts
  have hnodup : (mapKeys out.countryCounts).Nodup := by
    rw [htally]
    exact nodup_mapKeys_tallyOf _ _ (by simp [mapKeys])
  refine ⟨out, hout, ?_, ?_, hnodup, ?_⟩
  · rw [hprint]
    exact Multiset.coe_eq_coe.mpr (hperm.map _)
  · rw [hprint, List.toFinset_card_of_nodup hnodup, List.length_map, hperm.length_eq]
    simp [mapKeys]
  · intro hnil
    rw [hnil] at hperm
    rw [hprint, hnil, List.Perm.eq_nil hperm]
    rfl

/-- Scenario B: the only line printed is `United States: 2`. -/
theorem report_prints_tally_witness :
    ∃ out, main scenarioB "geoip" ["ips.txt"] = some out ∧
      Multiset.ofList (printedLines out.trace) =
        Multiset.ofList (out.countryCounts.map fun e => e.1 ++ ": " ++ toString e.2) ∧
      out.countryCounts = [("United States", 2)] ∧
      [("United States", 2)].map (fun e : String × Nat => e.1 ++ ": " ++ toString e.2) =
        ["United States: 2"] := by
  obtain ⟨out, hout, hlines, -⟩ := report_prints_tally scenarioB "geoip" ["ips.txt"]
  have hrun : main scenarioB "geoip" ["ips.txt"] = some
      { exitCode := 0,
        trace := [Event.lookup ["8.8.8.8", "8.8.4.4"]
            (some [ipResponse.mk "success" "United States" "",
              ipResponse.mk "success" "United States" ""]),
          Event.sleep 1500, Event.print "United States: 2"],
        countryCounts := [("United States", 2)] } := by decide
  have hcc : out.countryCounts = [("United States", 2)] := by
    rw [hrun] at hout
    rw [← Option.some.inj hout]
  exact ⟨out, hout, hlines, hcc, by decide⟩

/-- C10: the loop body tallies a decoded response without looking at the
chunk: whatever the lengths of the chunk and of the response, the tally after
the pass is the aggregation of the response alone, the sum of all counts grows
by exactly the number of elements whose status is `"success"`, and the count
under the empty-string key grows by the number of successes whose country is
empty. -/
theorem loopBody_tallies_any_response (env : Env) (ips : List String) (i : Nat)
    (st : RunState) (rs : List ipResponse)
    (hres : lookupBatch env st.calls (batchAt ips i) = Except.ok rs) :
    (loopBody env ips i st).countryCounts = (aggregate rs st).countryCounts ∧
    (∀ st1 : RunState, st1.countryCounts = st.countryCounts →
      (aggregate rs st1).countryCounts = (aggregate rs st).countryCounts) ∧
    mapTotal (loopBody env ips i st).countryCounts =
      mapTotal st.countryCounts + rs.countP (fun r => decide (r.Status = "success")) ∧
    mapIndex (loopBody env ips i st).countryCounts "" =
      mapIndex st.countryCounts "" +
        rs.countP (fun r => decide (r.Status = "success") && decide (r.Country = "")) := by
  have hcc : (loopBody env ips i st).countryCounts = tallyOf rs st.countryCounts := by
    rw [loopBody_countryCounts, hres]
  refine ⟨?_, ?_, ?_, ?_⟩
  · rw [hcc, aggregate_countryCounts]
  · intro st1 h1
    rw [aggregate_countryCounts, aggregate_countryCounts, h1]
  · rw [hcc, mapTotal_tallyOf]
    rfl
  · rw [hcc, mapIndex_tallyOf]
    rfl

/-- A chunk of one address answered with four elements, three of them
successes and one of these without country: the sum of the counts grows by 3,
more than the chunk is long, and the empty-string key gets count 1. -/
theorem loopBody_tallies_any_response_witness :
    (batchAt ["8.8.8.8"] 0).length = 1 ∧
    mapTotal (loopBody scenarioLongResponse ["8.8.8.8"] 0
      { countryCounts := [], calls := 0, trace := [] }).countryCounts = 3 ∧
    mapIndex (loopBody scenarioLongResponse ["8.8.8.8"] 0
      { countryCounts := [], calls := 0, trace := [] }).countryCounts "" = 1 :=
  have h := loopBody_tallies_any_response scenarioLongResponse ["8.8.8.8"] 0
    { countryCounts := [], calls := 0, trace := [] }
    [ipResponse.mk "success" "United States" "", ipResponse.mk "success" "" "",
      ipResponse.mk "fail" "" "invalid query", ipResponse.mk "success" "United States" ""] rfl
  ⟨by decide, h.2.2.1, h.2.2.2⟩

end GeoIP
